import Mathlib

/-!
Verification of the sampling core of the repository: reservoir sampling
(src/sampling.rs, reservoir_sample), Bernoulli percentage sampling
(src/sampling/percentage.rs, PercentageSampleIter) and grouped hash
sampling over CSV rows (src/sampling/hash.rs, CsvHashSampler).

Machine integers of the Rust source are modelled as Nat, the f64 draws of
the random generator and the f64 probabilities as Rat, iterators as lists
(the denotation of pulling an iterator to exhaustion), and the stateful
CsvHashSampler iterator as an explicit step function on a state record.
-/

set_option autoImplicit false

variable {α : Type} {σ : Type}

/-- Injected pseudo-random generator, the rand::Rng capability used by the
source: genRange models rng.gen_range, a uniform integer draw in
[0, bound), and genUnit models rng.gen returning an f64 in [0,1); both
thread an explicit generator state of type σ. -/
structure Rng (σ : Type) where
  genRange : Nat → σ → Nat × σ
  genUnit : σ → Rat × σ

/-- Loop body of reservoir_sample from src/sampling.rs lines 14-27: for
each item, increment count; while count is at most k push the item,
otherwise draw j uniformly in [0, count) and overwrite slot j when j < k,
discarding the item otherwise. The reservoir, the count and the generator
state are threaded explicitly. -/
def reservoirFold (rg : Rng σ) (k : Nat) : List α → List α → Nat → σ → List α × σ
  | [], reservoir, _, s => (reservoir, s)
  | item :: rest, reservoir, count, s =>
    let count1 := count + 1
    if count1 ≤ k then
      reservoirFold rg k rest (reservoir ++ [item]) count1 s
    else
      let js := rg.genRange count1 s
      if js.1 < k then
        reservoirFold rg k rest (reservoir.set js.1 item) count1 js.2
      else
        reservoirFold rg k rest reservoir count1 js.2

/-- reservoir_sample from src/sampling.rs lines 6-30: run the fold over the
whole input starting from an empty reservoir and count 0, and return the
final reservoir. -/
def reservoir_sample (l : List α) (k : Nat) (rg : Rng σ) (s : σ) : List α :=
  (reservoirFold rg k l [] 0 s).1

/-- Modelled from the spec wording of Algorithm R in section 4.1: process
the i-th record (1-based); for i at most k append it directly to the
reservoir; for i greater than k draw j uniformly in [0, i), overwrite
reservoir slot j when j < k and discard the record otherwise. -/
def reservoirSpecGo (rg : Rng σ) (k : Nat) : List α → Nat → List α → σ → List α
  | [], _, reservoir, _ => reservoir
  | item :: rest, i, reservoir, s =>
    if i ≤ k then
      reservoirSpecGo rg k rest (i + 1) (reservoir ++ [item]) s
    else
      let js := rg.genRange i s
      if js.1 < k then
        reservoirSpecGo rg k rest (i + 1) (reservoir.set js.1 item) js.2
      else
        reservoirSpecGo rg k rest (i + 1) reservoir js.2

/-- Modelled from the spec wording of Algorithm R: the records are
enumerated starting at index 1 with an empty initial reservoir. -/
def reservoirSpec (l : List α) (k : Nat) (rg : Rng σ) (s : σ) : List α :=
  reservoirSpecGo rg k l 1 [] s

namespace PercentageSampleIter

/-- PercentageSampleIter::new from src/sampling/percentage.rs lines 11-21:
the assert rejects a percentage outside [0,100] before any record is
consumed (a Rust panic, modelled as the error branch of Except); on
success the stored probability is percentage / 100. -/
def new (percentage : Rat) : Except String Rat :=
  if 0 ≤ percentage ∧ percentage ≤ 100 then Except.ok (percentage / 100)
  else Except.error "Percentage must be between 0 and 100"

end PercentageSampleIter

/-- Denotation of PercentageSampleIter::next from src/sampling/percentage.rs
lines 27-38 pulled to exhaustion: for each item one uniform draw in [0,1)
is taken and the item is kept iff the draw is strictly below the stored
probability; the generator state is threaded through every draw, kept or
not. -/
def percentageSample (rg : Rng σ) (probability : Rat) : List α → σ → List α
  | [], _ => []
  | item :: rest, s =>
    let us := rg.genUnit s
    if us.1 < probability then item :: percentageSample rg probability rest us.2
    else percentageSample rg probability rest us.2

/-- Concrete linear congruential generator used only to instantiate
theorems at concrete inputs. -/
def lcg (s : Nat) : Nat := (1103515245 * s + 12345) % 2147483648

/-- Concrete Rng instance over state Nat built from lcg; genRange reduces
the draw modulo the bound and genUnit scales a three-digit draw into
[0,1). -/
def testRng : Rng Nat where
  genRange := fun bound s => (lcg s % bound, lcg s)
  genUnit := fun s => (((lcg s % 1000 : Nat) : Rat) / 1000, lcg s)

theorem testRng_unit_nonneg : ∀ s : Nat, 0 ≤ (testRng.genUnit s).1 := by
  intro s
  simp only [testRng]
  positivity

theorem testRng_unit_lt_one : ∀ s : Nat, (testRng.genUnit s).1 < 1 := by
  intro s
  simp only [testRng]
  rw [div_lt_one (by norm_num)]
  exact_mod_cast Nat.mod_lt _ (by norm_num)

namespace CsvHashSampler

/-- Kinds of io::Error raised by CsvHashSampler: InvalidInput tags the
column-not-found failure of new, InvalidData tags header and row decode
failures. -/
inductive ErrorKind where
  | invalidInput
  | invalidData
  deriving DecidableEq

/-- Model of io::Error: a kind together with the message string. -/
structure IoError where
  kind : ErrorKind
  msg : String
  deriving DecidableEq

/-- Outcome of CsvHashSampler::new: either a Rust panic from the
percentage assert, or an io::Error. -/
inductive Failure where
  | assertFailed (msg : String)
  | ioError (e : IoError)
  deriving DecidableEq

/-- The configuration part of CsvHashSampler fixed at construction:
probability (percentage / 100), column_index and the header record. CSV
rows are lists of field strings, already trimmed by the reader
(csv::Trim::All). -/
structure Config where
  probability : Rat
  column_index : Nat
  header : List String
  deriving DecidableEq

/-- Iterator::position as used on the header in new: index of the first
element satisfying the predicate. -/
def position (p : α → Bool) : List α → Option Nat
  | [] => none
  | a :: l => if p a then some 0 else (position p l).map (· + 1)

/-- CsvHashSampler::new from src/sampling/hash.rs lines 29-66: assert the
percentage range (a panic, modelled as assertFailed), then locate the
column by comparing each trimmed header field with the trimmed requested
name, first match winning; a missing column is an io::Error of kind
InvalidInput carrying the column name. The header itself is taken as
already decoded; the header-read io path is external CSV parsing. -/
def new (header : List String) (percentage : Rat) (column_name : String) :
    Except Failure Config :=
  if 0 ≤ percentage ∧ percentage ≤ 100 then
    match position (fun h => h.trim == column_name.trim) header with
    | some idx => Except.ok ⟨percentage / 100, idx, header⟩
    | none => Except.error (Failure.ioError
        ⟨ErrorKind.invalidInput,
         "Column '" ++ column_name ++ "' not found in CSV header"⟩)
  else Except.error (Failure.assertFailed "Percentage must be between 0 and 100")

/-- Maximum value of u64, the divisor used to map the hash onto [0,1). -/
def u64MAX : Nat := 2 ^ 64 - 1

/-- calculate_hash from src/sampling/hash.rs lines 141-145: DefaultHasher
is an externally defined deterministic function from strings to u64 with
fixed keys, modelled as the parameter hashFn reduced into u64 range. -/
def calculate_hash (hashFn : String → Nat) (v : String) : Nat :=
  hashFn v % 2 ^ 64

/-- Per-row decision of CsvHashSampler::next from src/sampling/hash.rs
lines 119-134: a row whose field count does not reach column_index is
included unconditionally (the early return Some(Ok(record))); otherwise
the column value is hashed, normalized by dividing by u64::MAX, and the
row is included iff the normalized value is strictly below the
probability. -/
def rowDecision (cfg : Config) (hashFn : String → Nat) (row : List String) : Bool :=
  match row[cfg.column_index]? with
  | none => true
  | some v => ((calculate_hash hashFn v : Rat) / (u64MAX : Rat)) < cfg.probability

/-- Mutable state of the CsvHashSampler iterator: the decode outcomes the
CSV reader has yet to produce, and the done flag. -/
structure SamplerState where
  rows : List (Except String (List String))
  done : Bool

/-- CsvHashSampler::read_next_record from src/sampling/hash.rs lines
79-100: nothing once done; end of input sets done; a decode error sets
done and surfaces the error; otherwise the decoded row is produced. -/
def read_next_record : SamplerState → Option (Except String (List String)) × SamplerState
  | ⟨rows, true⟩ => (none, ⟨rows, true⟩)
  | ⟨[], false⟩ => (none, ⟨[], true⟩)
  | ⟨Except.error e :: rest, false⟩ => (some (Except.error e), ⟨rest, true⟩)
  | ⟨Except.ok r :: rest, false⟩ => (some (Except.ok r), ⟨rest, false⟩)

/-- CsvHashSampler::next from src/sampling/hash.rs lines 107-137: pull
records with read_next_record, wrapping a decode error into an io::Error
of kind InvalidData and returning it, returning an included row, and
looping past an excluded row. -/
def next (cfg : Config) (hashFn : String → Nat) :
    SamplerState → Option (Except IoError (List String)) × SamplerState
  | ⟨rows, true⟩ => (none, ⟨rows, true⟩)
  | ⟨[], false⟩ => (none, ⟨[], true⟩)
  | ⟨Except.error e :: rest, false⟩ =>
    (some (Except.error ⟨ErrorKind.invalidData, e⟩), ⟨rest, true⟩)
  | ⟨Except.ok r :: rest, false⟩ =>
    if rowDecision cfg hashFn r then (some (Except.ok r), ⟨rest, false⟩)
    else next cfg hashFn ⟨rest, false⟩

/-- Pulling the iterator repeatedly, collecting every yielded item until
next returns none; the fuel argument bounds the number of pulls and any
fuel of at least rows.length + 1 is enough. -/
def pullAll (cfg : Config) (hashFn : String → Nat) :
    Nat → SamplerState → List (Except IoError (List String))
  | 0, _ => []
  | n + 1, st =>
    match next cfg hashFn st with
    | (none, _) => []
    | (some x, st1) => x :: pullAll cfg hashFn n st1

end CsvHashSampler

/-- Concrete hash function used only to instantiate theorems at concrete
inputs, standing in for DefaultHasher. -/
def testHash (s : String) : Nat :=
  s.foldl (fun acc c => (acc * 131 + c.toNat) % 2 ^ 64) 7

theorem reservoirFold_length (rg : Rng σ) (k : Nat) :
    ∀ (l res : List α) (count : Nat) (s : σ), res.length = min count k →
      ((reservoirFold rg k l res count s).1).length = min (count + l.length) k := by
  intro l
  induction l with
  | nil => intro res count s h; simpa [reservoirFold] using h
  | cons item rest ih =>
    intro res count s h
    simp only [reservoirFold]
    by_cases hk : count + 1 ≤ k
    · rw [if_pos hk, ih]
      · simp only [List.length_cons]; omega
      · simp only [List.length_append, List.length_singleton]; omega
    · rw [if_neg hk]
      by_cases hj : (rg.genRange (count + 1) s).1 < k
      · rw [if_pos hj, ih]
        · simp only [List.length_cons]; omega
        · simp only [List.length_set]; omega
      · rw [if_neg hj, ih]
        · simp only [List.length_cons]; omega
        · omega

theorem reservoirFold_all (rg : Rng σ) (k : Nat) :
    ∀ (l res : List α) (count : Nat) (s : σ), count + l.length ≤ k →
      reservoirFold rg k l res count s = (res ++ l, s) := by
  intro l
  induction l with
  | nil => intro res count s _; simp [reservoirFold]
  | cons item rest ih =>
    intro res count s h
    simp only [List.length_cons] at h
    simp only [reservoirFold]
    rw [if_pos (by omega), ih (res ++ [item]) (count + 1) s (by omega)]
    simp

theorem reservoirFold_mem (rg : Rng σ) (k : Nat) :
    ∀ (l res : List α) (count : Nat) (s : σ),
      ∀ x ∈ (reservoirFold rg k l res count s).1, x ∈ res ∨ x ∈ l := by
  intro l
  induction l with
  | nil => intro res count s x hx; simp only [reservoirFold] at hx; exact Or.inl hx
  | cons item rest ih =>
    intro res count s x hx
    simp only [reservoirFold] at hx
    by_cases hk : count + 1 ≤ k
    · rw [if_pos hk] at hx
      rcases ih _ _ _ _ hx with h | h
      · rcases List.mem_append.mp h with h | h
        · exact Or.inl h
        · exact Or.inr (by simp at h; simp [h])
      · exact Or.inr (List.mem_cons_of_mem _ h)
    · rw [if_neg hk] at hx
      by_cases hj : (rg.genRange (count + 1) s).1 < k
      · rw [if_pos hj] at hx
        rcases ih _ _ _ _ hx with h | h
        · rcases List.mem_or_eq_of_mem_set h with h | h
          · exact Or.inl h
          · exact Or.inr (by simp [h])
        · exact Or.inr (List.mem_cons_of_mem _ h)
      · rw [if_neg hj] at hx
        rcases ih _ _ _ _ hx with h | h
        · exact Or.inl h
        · exact Or.inr (List.mem_cons_of_mem _ h)

theorem nodup_set_of_not_mem (item : α) :
    ∀ (res : List α) (j : Nat), res.Nodup → item ∉ res → (res.set j item).Nodup := by
  intro res
  induction res with
  | nil => intro j _ _; simp
  | cons a t ih =>
    intro j h hni
    rcases List.nodup_cons.mp h with ⟨hat, ht⟩
    cases j with
    | zero =>
      simp only [List.set_cons_zero, List.nodup_cons]
      exact ⟨fun hmem => hni (List.mem_cons_of_mem _ hmem), ht⟩
    | succ j =>
      simp only [List.set_cons_succ, List.nodup_cons]
      refine ⟨fun hmem => ?_, ih j ht fun hmem => hni (List.mem_cons_of_mem _ hmem)⟩
      rcases List.mem_or_eq_of_mem_set hmem with h | h
      · exact hat h
      · exact hni (by simp [h])

theorem reservoirFold_nodup (rg : Rng σ) (k : Nat) :
    ∀ (l res : List α) (count : Nat) (s : σ), (res ++ l).Nodup →
      res.length = min count k → ((reservoirFold rg k l res count s).1).Nodup := by
  intro l
  induction l with
  | nil => intro res count s h _; simp only [reservoirFold]; simpa using h
  | cons item rest ih =>
    intro res count s h hlen
    rcases List.nodup_append.mp h with ⟨hres, hcons, hdisj⟩
    rcases List.nodup_cons.mp hcons with ⟨hir, hrest⟩
    have hitem : item ∉ res := fun hmem => hdisj hmem (List.mem_cons_self _ _)
    simp only [reservoirFold]
    by_cases hk : count + 1 ≤ k
    · rw [if_pos hk]
      refine ih _ _ _ ?_ ?_
      · rw [List.append_assoc]; simpa using h
      · simp only [List.length_append, List.length_singleton]; omega
    · rw [if_neg hk]
      by_cases hj : (rg.genRange (count + 1) s).1 < k
      · rw [if_pos hj]
        refine ih _ _ _ ?_ ?_
        · refine List.nodup_append.mpr ⟨nodup_set_of_not_mem _ _ _ hres hitem, hrest, ?_⟩
          intro x hx hxr
          rcases List.mem_or_eq_of_mem_set hx with h | h
          · exact hdisj h (List.mem_cons_of_mem _ hxr)
          · exact hir (h ▸ hxr)
        · simp only [List.length_set]; omega
      · rw [if_neg hj]
        refine ih _ _ _ ?_ ?_
        · refine List.nodup_append.mpr ⟨hres, hrest, ?_⟩
          intro x hx hxr
          exact hdisj hx (List.mem_cons_of_mem _ hxr)
        · omega

theorem reservoirFold_spec_eq (rg : Rng σ) (k : Nat) :
    ∀ (l res : List α) (count : Nat) (s : σ),
      (reservoirFold rg k l res count s).1 = reservoirSpecGo rg k l (count + 1) res s := by
  intro l
  induction l with
  | nil => intro res count s; simp [reservoirFold, reservoirSpecGo]
  | cons item rest ih =>
    intro res count s
    simp only [reservoirFold, reservoirSpecGo]
    by_cases hk : count + 1 ≤ k
    · rw [if_pos hk, if_pos hk, ih]
    · rw [if_neg hk, if_neg hk]
      by_cases hj : (rg.genRange (count + 1) s).1 < k
      · rw [if_pos hj, if_pos hj, ih]
      · rw [if_neg hj, if_neg hj, ih]

theorem reservoirFold_congr (rg1 rg2 : Rng σ) (k : Nat)
    (h : ∀ bound s, rg1.genRange bound s = rg2.genRange bound s) :
    ∀ (l res : List α) (count : Nat) (s : σ),
      reservoirFold rg1 k l res count s = reservoirFold rg2 k l res count s := by
  intro l
  induction l with
  | nil => intro res count s; simp [reservoirFold]
  | cons item rest ih =>
    intro res count s
    simp only [reservoirFold, h]
    by_cases hk : count + 1 ≤ k
    · rw [if_pos hk, if_pos hk, ih]
    · rw [if_neg hk, if_neg hk]
      by_cases hj : (rg2.genRange (count + 1) s).1 < k
      · rw [if_pos hj, if_pos hj, ih]
      · rw [if_neg hj, if_neg hj, ih]

theorem reservoirFold_map {β : Type} (f : β → α) (rg : Rng σ) (k : Nat) :
    ∀ (l res : List β) (count : Nat) (s : σ),
      reservoirFold rg k (l.map f) (res.map f) count s =
        ((reservoirFold rg k l res count s).1.map f, (reservoirFold rg k l res count s).2) := by
  intro l
  induction l with
  | nil => intro res count s; simp [reservoirFold]
  | cons item rest ih =>
    intro res count s
    simp only [List.map_cons, reservoirFold]
    by_cases hk : count + 1 ≤ k
    · rw [if_pos hk, if_pos hk,
        show List.map f res ++ [f item] = List.map f (res ++ [item]) by simp, ih]
    · rw [if_neg hk, if_neg hk]
      by_cases hj : (rg.genRange (count + 1) s).1 < k
      · rw [if_pos hj, if_pos hj, ← List.map_set, ih]
      · rw [if_neg hj, if_neg hj, ih]

theorem percentageSample_sublist (rg : Rng σ) (prob : Rat) :
    ∀ (l : List α) (s : σ), List.Sublist (percentageSample rg prob l s) l := by
  intro l
  induction l with
  | nil => intro s; simp [percentageSample]
  | cons item rest ih =>
    intro s
    simp only [percentageSample]
    by_cases h : (rg.genUnit s).1 < prob
    · rw [if_pos h]; exact List.Sublist.cons₂ _ (ih _)
    · rw [if_neg h]; exact List.Sublist.cons _ (ih _)

theorem percentageSample_zero (rg : Rng σ) (prob : Rat) (hprob : prob ≤ 0)
    (h0 : ∀ t, 0 ≤ (rg.genUnit t).1) :
    ∀ (l : List α) (s : σ), percentageSample rg prob l s = [] := by
  intro l
  induction l with
  | nil => intro s; simp [percentageSample]
  | cons item rest ih =>
    intro s
    simp only [percentageSample]
    rw [if_neg (by have := h0 s; intro hlt; exact absurd (lt_of_le_of_lt this hlt) (not_lt.mpr hprob))]
    exact ih _

theorem percentageSample_all (rg : Rng σ) (prob : Rat) (hprob : 1 ≤ prob)
    (h1 : ∀ t, (rg.genUnit t).1 < 1) :
    ∀ (l : List α) (s : σ), percentageSample rg prob l s = l := by
  intro l
  induction l with
  | nil => intro s; simp [percentageSample]
  | cons item rest ih =>
    intro s
    simp only [percentageSample]
    rw [if_pos (lt_of_lt_of_le (h1 s) hprob)]
    rw [ih]

theorem percentageSample_congr (rg1 rg2 : Rng σ)
    (h : ∀ t, rg1.genUnit t = rg2.genUnit t) (prob : Rat) :
    ∀ (l : List α) (s : σ), percentageSample rg1 prob l s = percentageSample rg2 prob l s := by
  intro l
  induction l with
  | nil => intro s; simp [percentageSample]
  | cons item rest ih =>
    intro s
    simp only [percentageSample, h]
    by_cases hlt : (rg2.genUnit s).1 < prob
    · rw [if_pos hlt, if_pos hlt, ih]
    · rw [if_neg hlt, if_neg hlt, ih]

/-- C2: for every input, every k and every generator, reservoir_sample
returns exactly min(n, k) records, and when n is at most k it returns the
whole input in its original order. -/
theorem reservoir_length_min (l : List α) (k : Nat) (rg : Rng σ) (s : σ) :
    (reservoir_sample l k rg s).length = min l.length k ∧
    (l.length ≤ k → reservoir_sample l k rg s = l) := by
  constructor
  · have := reservoirFold_length rg k l [] 0 s (by simp)
    simpa [reservoir_sample] using this
  · intro h
    have := reservoirFold_all rg k l [] 0 s (by omega)
    simp [reservoir_sample, this]

/-- C2 witness at a concrete input: three records, k = 5, the concrete
generator. -/
theorem reservoir_length_min_witness :
    (reservoir_sample [1, 2, 3] 5 testRng 0).length = min ([1, 2, 3] : List Nat).length 5 ∧
    (([1, 2, 3] : List Nat).length ≤ 5 → reservoir_sample [1, 2, 3] 5 testRng 0 = [1, 2, 3]) :=
  reservoir_length_min [1, 2, 3] 5 testRng 0

/-- C3: reservoir_sample implements Algorithm R as the spec words it: the
first k records are appended directly, and the i-th record (i greater
than k, 1-based) triggers one uniform draw j in [0, i), overwriting slot
j when j < k and discarding the record otherwise. -/
theorem reservoir_matches_algorithm_r (l : List α) (k : Nat) (rg : Rng σ) (s : σ) :
    reservoir_sample l k rg s = reservoirSpec l k rg s := by
  unfold reservoir_sample reservoirSpec
  exact reservoirFold_spec_eq rg k l [] 0 s

/-- C4: with more records than k, the output has exactly k records, every
output record occurs in the input, distinct input records stay distinct in
the output, the run over position-tagged records projects onto the actual
run and carries pairwise distinct input positions (no input position
contributes twice), and after any consumed input prefix the intermediate
reservoir, which equals reservoir_sample of that prefix, holds at most k
records all drawn from that prefix. -/
theorem reservoir_subset_nodup_invariant (l : List α) (k : Nat) (rg : Rng σ) (s : σ)
    (h : k < l.length) :
    (reservoir_sample l k rg s).length = k ∧
    (∀ x ∈ reservoir_sample l k rg s, x ∈ l) ∧
    (l.Nodup → (reservoir_sample l k rg s).Nodup) ∧
    ((reservoir_sample (List.zip (List.range l.length) l) k rg s).map Prod.snd =
      reservoir_sample l k rg s) ∧
    ((reservoir_sample (List.zip (List.range l.length) l) k rg s).map Prod.fst).Nodup ∧
    (∀ l1 l2 : List α, l = l1 ++ l2 →
      (reservoir_sample l1 k rg s).length ≤ k ∧ ∀ x ∈ reservoir_sample l1 k rg s, x ∈ l1) := by
  have hfst : (List.zip (List.range l.length) l).map Prod.fst = List.range l.length :=
    List.map_fst_zip _ _ (by simp)
  have hsnd : (List.zip (List.range l.length) l).map Prod.snd = l :=
    List.map_snd_zip _ _ (by simp)
  have hindn : (List.zip (List.range l.length) l).Nodup :=
    List.Nodup.of_map Prod.fst (by rw [hfst]; exact List.nodup_range _)
  refine ⟨?_, ?_, ?_, ?_, ?_, ?_⟩
  · have := reservoirFold_length rg k l [] 0 s (by simp)
    simp only [reservoir_sample]
    omega
  · intro x hx
    have := reservoirFold_mem rg k l [] 0 s x hx
    simpa using this
  · intro hnd
    exact reservoirFold_nodup rg k l [] 0 s (by simpa using hnd) (by simp)
  · have hmap := reservoirFold_map Prod.snd rg k (List.zip (List.range l.length) l) [] 0 s
    rw [hsnd] at hmap
    simp only [List.map_nil] at hmap
    simp only [reservoir_sample, hmap]
  · have hout : (reservoir_sample (List.zip (List.range l.length) l) k rg s).Nodup :=
      reservoirFold_nodup rg k _ [] 0 s (by simpa using hindn) (by simp)
    have hmem : ∀ x ∈ reservoir_sample (List.zip (List.range l.length) l) k rg s,
        x ∈ List.zip (List.range l.length) l := by
      intro x hx
      have := reservoirFold_mem rg k _ [] 0 s x hx
      simpa using this
    refine List.Nodup.map_on (fun x hx y hy hxy => ?_) hout
    exact List.inj_on_of_nodup_map (by rw [hfst]; exact List.nodup_range _)
      (hmem x hx) (hmem y hy) hxy
  · intro l1 l2 _
    constructor
    · have := reservoirFold_length rg k l1 [] 0 s (by simp)
      simp only [reservoir_sample]
      omega
    · intro x hx
      have := reservoirFold_mem rg k l1 [] 0 s x hx
      simpa using this

/-- C4 witness at a concrete input: five distinct records, k = 2, the
concrete generator. -/
theorem reservoir_subset_nodup_invariant_witness :
    (reservoir_sample [1, 2, 3, 4, 5] 2 testRng 0).length = 2 ∧
    (∀ x ∈ reservoir_sample [1, 2, 3, 4, 5] 2 testRng 0, x ∈ ([1, 2, 3, 4, 5] : List Nat)) ∧
    (([1, 2, 3, 4, 5] : List Nat).Nodup → (reservoir_sample [1, 2, 3, 4, 5] 2 testRng 0).Nodup) ∧
    ((reservoir_sample (List.zip (List.range ([1, 2, 3, 4, 5] : List Nat).length) [1, 2, 3, 4, 5])
        2 testRng 0).map Prod.snd = reservoir_sample [1, 2, 3, 4, 5] 2 testRng 0) ∧
    ((reservoir_sample (List.zip (List.range ([1, 2, 3, 4, 5] : List Nat).length) [1, 2, 3, 4, 5])
        2 testRng 0).map Prod.fst).Nodup ∧
    (∀ l1 l2 : List Nat, [1, 2, 3, 4, 5] = l1 ++ l2 →
      (reservoir_sample l1 2 testRng 0).length ≤ 2 ∧
      ∀ x ∈ reservoir_sample l1 2 testRng 0, x ∈ l1) :=
  reservoir_subset_nodup_invariant [1, 2, 3, 4, 5] 2 testRng 0 (by decide)

/-- C5: for every probability, the Bernoulli sampler output is a
subsequence of the input in relative order; at p = 0 it is empty and at
p = 100 it is the whole input, given a generator drawing in [0,1). The
stored probability is p / 100 as set by PercentageSampleIter::new. -/
theorem bernoulli_subsequence_boundaries (rg : Rng σ) (p : Rat) (l : List α) (s : σ)
    (h0 : ∀ t, 0 ≤ (rg.genUnit t).1) (h1 : ∀ t, (rg.genUnit t).1 < 1) :
    List.Sublist (percentageSample rg (p / 100) l s) l ∧
    (p = 0 → percentageSample rg (p / 100) l s = []) ∧
    (p = 100 → percentageSample rg (p / 100) l s = l) := by
  refine ⟨percentageSample_sublist rg (p / 100) l s, ?_, ?_⟩
  · intro hp
    exact percentageSample_zero rg (p / 100) (by rw [hp]; norm_num) h0 l s
  · intro hp
    exact percentageSample_all rg (p / 100) (by rw [hp]; norm_num) h1 l s

/-- C5 witness at a concrete input: p = 0 over three records with the
concrete generator. -/
theorem bernoulli_subsequence_boundaries_witness :
    List.Sublist (percentageSample testRng ((0 : Rat) / 100) [1, 2, 3] 7) [1, 2, 3] ∧
    ((0 : Rat) = 0 → percentageSample testRng ((0 : Rat) / 100) [1, 2, 3] 7 = []) ∧
    ((0 : Rat) = 100 → percentageSample testRng ((0 : Rat) / 100) [1, 2, 3] 7 = [1, 2, 3]) :=
  bernoulli_subsequence_boundaries testRng 0 [1, 2, 3] 7 testRng_unit_nonneg testRng_unit_lt_one

/-- C9: two generators that produce the same draw sequence from equal
seeds give bit-identical outputs on identical inputs, for reservoir_sample
and for the Bernoulli sampler. -/
theorem seeded_runs_reproducible (rg1 rg2 : Rng σ)
    (hR : ∀ bound s, rg1.genRange bound s = rg2.genRange bound s)
    (hU : ∀ t, rg1.genUnit t = rg2.genUnit t) :
    (∀ (l : List α) (k : Nat) (s : σ), reservoir_sample l k rg1 s = reservoir_sample l k rg2 s) ∧
    (∀ (l : List α) (prob : Rat) (s : σ),
      percentageSample rg1 prob l s = percentageSample rg2 prob l s) := by
  constructor
  · intro l k s
    simp only [reservoir_sample, reservoirFold_congr rg1 rg2 k hR]
  · intro l prob s
    exact percentageSample_congr rg1 rg2 hU prob l s

/-- C9 witness at a concrete input: the concrete generator against itself
on a five-record input. -/
theorem seeded_runs_reproducible_witness :
    reservoir_sample [1, 2, 3, 4, 5] 2 testRng 0 = reservoir_sample [1, 2, 3, 4, 5] 2 testRng 0 :=
  (seeded_runs_reproducible testRng testRng (fun _ _ => rfl) (fun _ => rfl)).1 [1, 2, 3, 4, 5] 2 0

namespace CsvHashSampler

theorem position_spec (p : α → Bool) :
    ∀ (l : List α) (i : Nat), position p l = some i →
      ∃ x, l[i]? = some x ∧ p x = true ∧
        ∀ j, j < i → ∀ y, l[j]? = some y → p y = false := by
  intro l
  induction l with
  | nil => intro i h; simp [position] at h
  | cons a t ih =>
    intro i h
    simp only [position] at h
    by_cases hp : p a
    · rw [if_pos hp] at h
      obtain rfl : (0 : Nat) = i := Option.some.inj h
      exact ⟨a, by simp, hp, fun j hj => by omega⟩
    · rw [if_neg hp] at h
      rcases Option.map_eq_some'.mp h with ⟨i1, hi1, hplus⟩
      subst hplus
      obtain ⟨x, hx, hpx, hfirst⟩ := ih i1 hi1
      refine ⟨x, by simpa using hx, hpx, ?_⟩
      intro j hj y hy
      cases j with
      | zero =>
        have hya : a = y := by simpa using hy
        rw [← hya]
        exact Bool.eq_false_iff.mpr hp
      | succ j1 => exact hfirst j1 (by omega) y (by simpa using hy)

theorem position_none (p : α → Bool) :
    ∀ l : List α, (∀ x ∈ l, p x = false) → position p l = none := by
  intro l
  induction l with
  | nil => intro _; simp [position]
  | cons a t ih =>
    intro h
    simp only [position]
    rw [if_neg (by simp [h a (List.mem_cons_self a t)]), ih fun x hx => h x (List.mem_cons_of_mem a hx)]
    rfl

theorem next_done (cfg : Config) (hashFn : String → Nat) (rows : List (Except String (List String))) :
    next cfg hashFn ⟨rows, true⟩ = (none, ⟨rows, true⟩) := by
  simp [next]

theorem next_error (cfg : Config) (hashFn : String → Nat) (e : String)
    (rest : List (Except String (List String))) :
    next cfg hashFn ⟨Except.error e :: rest, false⟩ =
      (some (Except.error ⟨ErrorKind.invalidData, e⟩), ⟨rest, true⟩) := by
  simp [next]

theorem next_keep (cfg : Config) (hashFn : String → Nat) (r : List String)
    (rest : List (Except String (List String))) (h : rowDecision cfg hashFn r = true) :
    next cfg hashFn ⟨Except.ok r :: rest, false⟩ = (some (Except.ok r), ⟨rest, false⟩) := by
  simp [next, h]

theorem next_skip (cfg : Config) (hashFn : String → Nat) (r : List String)
    (rest : List (Except String (List String))) (h : rowDecision cfg hashFn r = false) :
    next cfg hashFn ⟨Except.ok r :: rest, false⟩ = next cfg hashFn ⟨rest, false⟩ := by
  simp [next, h]

theorem pullAll_done (cfg : Config) (hashFn : String → Nat) :
    ∀ (n : Nat) (rows : List (Except String (List String))),
      pullAll cfg hashFn n ⟨rows, true⟩ = [] := by
  intro n rows
  cases n with
  | zero => simp [pullAll]
  | succ n => simp [pullAll, next_done]

theorem pullAll_skip (cfg : Config) (hashFn : String → Nat) (n : Nat) (r : List String)
    (rest : List (Except String (List String))) (h : rowDecision cfg hashFn r = false) :
    pullAll cfg hashFn (n + 1) ⟨Except.ok r :: rest, false⟩ =
      pullAll cfg hashFn (n + 1) ⟨rest, false⟩ := by
  simp only [pullAll]
  rw [next_skip cfg hashFn r rest h]

theorem pullAll_stops_at_error (cfg : Config) (hashFn : String → Nat) :
    ∀ (good : List (List String)) (fuel : Nat) (e : String)
      (post : List (Except String (List String))), good.length + 1 ≤ fuel →
      pullAll cfg hashFn fuel ⟨good.map Except.ok ++ Except.error e :: post, false⟩ =
        (good.filter (rowDecision cfg hashFn)).map Except.ok ++
          [Except.error ⟨ErrorKind.invalidData, e⟩] := by
  intro good
  induction good with
  | nil =>
    intro fuel e post hfuel
    cases fuel with
    | zero => omega
    | succ n =>
      simp only [List.map_nil, List.nil_append, pullAll]
      rw [next_error]
      simp [pullAll_done]
  | cons r g ih =>
    intro fuel e post hfuel
    cases fuel with
    | zero => simp at hfuel
    | succ n =>
      by_cases hd : rowDecision cfg hashFn r
      · simp only [List.map_cons, List.cons_append, pullAll,
          next_keep cfg hashFn r _ hd]
        rw [ih n e post (by simp only [List.length_cons] at hfuel; omega)]
        simp [List.filter_cons, hd]
      · rw [List.map_cons, List.cons_append,
          pullAll_skip cfg hashFn n r _ (Bool.eq_false_iff.mpr hd)]
        rw [ih (n + 1) e post (by simp only [List.length_cons] at hfuel; omega)]
        simp [List.filter_cons, hd]

end CsvHashSampler

/-- C1: two successful constructions of the grouped hash sampler from the
same header, probability and column name produce the same configuration,
and two rows carrying the same string in the designated column receive
the same per-row decision, for any deterministic hash function. -/
theorem grouped_hash_same_key_same_decision (header : List String) (p : Rat) (name : String)
    (cfg1 cfg2 : CsvHashSampler.Config) (hashFn : String → Nat) (r1 r2 : List String) (v : String)
    (h1 : CsvHashSampler.new header p name = Except.ok cfg1)
    (h2 : CsvHashSampler.new header p name = Except.ok cfg2)
    (hv1 : r1[cfg1.column_index]? = some v)
    (hv2 : r2[cfg2.column_index]? = some v) :
    CsvHashSampler.rowDecision cfg1 hashFn r1 = CsvHashSampler.rowDecision cfg2 hashFn r2 := by
  obtain rfl : cfg1 = cfg2 := Except.ok.inj (h1.symm.trans h2)
  simp [CsvHashSampler.rowDecision, hv1, hv2]

/-- C1 witness at a concrete input: header with a single column id,
p = 50, two rows sharing the value 1 in that column. -/
theorem grouped_hash_same_key_same_decision_witness :
    CsvHashSampler.rowDecision ⟨(50 : Rat) / 100, 0, ["id"]⟩ testHash ["1", "Alice"] =
      CsvHashSampler.rowDecision ⟨(50 : Rat) / 100, 0, ["id"]⟩ testHash ["1", "Bob"] :=
  grouped_hash_same_key_same_decision ["id"] 50 "id"
    ⟨(50 : Rat) / 100, 0, ["id"]⟩ ⟨(50 : Rat) / 100, 0, ["id"]⟩ testHash
    ["1", "Alice"] ["1", "Bob"] "1"
    (by rw [CsvHashSampler.new, if_pos (by norm_num)]; simp [CsvHashSampler.position])
    (by rw [CsvHashSampler.new, if_pos (by norm_num)]; simp [CsvHashSampler.position])
    (by simp) (by simp)

/-- C6: a probability outside [0,100] makes both sampler constructors fail
eagerly, before any record is consumed, and a probability inside [0,100]
makes PercentageSampleIter::new succeed; a successful grouped construction
implies the probability was in range, so the check never fires mid-stream. -/
theorem probability_validated_at_construction (p : Rat) :
    (PercentageSampleIter.new p = Except.ok (p / 100) ↔ 0 ≤ p ∧ p ≤ 100) ∧
    (¬(0 ≤ p ∧ p ≤ 100) →
      PercentageSampleIter.new p = Except.error "Percentage must be between 0 and 100") ∧
    (∀ (header : List String) (name : String), ¬(0 ≤ p ∧ p ≤ 100) →
      CsvHashSampler.new header p name =
        Except.error (CsvHashSampler.Failure.assertFailed "Percentage must be between 0 and 100")) ∧
    (∀ (header : List String) (name : String) (cfg : CsvHashSampler.Config),
      CsvHashSampler.new header p name = Except.ok cfg → 0 ≤ p ∧ p ≤ 100) := by
  refine ⟨⟨fun h => ?_, fun hc => ?_⟩, fun hc => ?_, fun header name hc => ?_,
    fun header name cfg hok => ?_⟩
  · by_contra hc
    rw [PercentageSampleIter.new, if_neg hc] at h
    simp at h
  · rw [PercentageSampleIter.new, if_pos hc]
  · rw [PercentageSampleIter.new, if_neg hc]
  · rw [CsvHashSampler.new, if_neg hc]
  · by_contra hc
    rw [CsvHashSampler.new, if_neg hc] at hok
    simp at hok

/-- C6 witness at a concrete input: p = 150 is rejected by both
constructors exactly at construction. -/
theorem probability_validated_at_construction_witness :
    PercentageSampleIter.new 150 = Except.error "Percentage must be between 0 and 100" ∧
    CsvHashSampler.new ["id"] 150 "id" =
      Except.error (CsvHashSampler.Failure.assertFailed "Percentage must be between 0 and 100") :=
  ⟨(probability_validated_at_construction 150).2.1 (by norm_num),
   (probability_validated_at_construction 150).2.2.1 ["id"] "id" (by norm_num)⟩

/-- C7: a successful grouped construction stores the index of the first
header field whose trimmed name equals the trimmed requested name, every
earlier field mismatching; when no field matches and the probability is
valid, construction fails once with an io::Error of kind InvalidInput
whose message carries the requested column name, a kind distinct from the
InvalidData kind of row decode failures. -/
theorem column_lookup_first_match (header : List String) (p : Rat) (name : String) :
    (∀ cfg : CsvHashSampler.Config, CsvHashSampler.new header p name = Except.ok cfg →
      cfg.header = header ∧ cfg.probability = p / 100 ∧
      ∃ x, header[cfg.column_index]? = some x ∧ (x.trim == name.trim) = true ∧
        ∀ j, j < cfg.column_index → ∀ y, header[j]? = some y → (y.trim == name.trim) = false) ∧
    ((∀ x ∈ header, (x.trim == name.trim) = false) → 0 ≤ p → p ≤ 100 →
      CsvHashSampler.new header p name = Except.error (CsvHashSampler.Failure.ioError
        ⟨CsvHashSampler.ErrorKind.invalidInput,
         "Column '" ++ name ++ "' not found in CSV header"⟩)) ∧
    CsvHashSampler.ErrorKind.invalidInput ≠ CsvHashSampler.ErrorKind.invalidData := by
  refine ⟨fun cfg hok => ?_, fun hall hp0 hp1 => ?_, by simp⟩
  · rw [CsvHashSampler.new] at hok
    by_cases hc : 0 ≤ p ∧ p ≤ 100
    · rw [if_pos hc] at hok
      cases hpos : CsvHashSampler.position (fun h => h.trim == name.trim) header with
      | none => rw [hpos] at hok; simp at hok
      | some idx =>
        rw [hpos] at hok
        simp only [Except.ok.injEq] at hok
        subst hok
        obtain ⟨x, hx, hpx, hfirst⟩ := CsvHashSampler.position_spec _ header idx hpos
        exact ⟨rfl, rfl, x, hx, hpx, hfirst⟩
    · rw [if_neg hc] at hok
      simp at hok
  · rw [CsvHashSampler.new, if_pos ⟨hp0, hp1⟩, CsvHashSampler.position_none _ header hall]

/-- C7 witness at a concrete input: an empty header cannot contain the
requested column, so construction fails with the InvalidInput error
carrying the column name. -/
theorem column_lookup_first_match_witness :
    CsvHashSampler.new [] 50 "key" = Except.error (CsvHashSampler.Failure.ioError
      ⟨CsvHashSampler.ErrorKind.invalidInput,
       "Column '" ++ "key" ++ "' not found in CSV header"⟩) :=
  (column_lookup_first_match [] 50 "key").2.1 (by simp) (by norm_num) (by norm_num)

/-- C8: once done, every pull of the grouped sampler returns
end-of-sequence; a decode error is surfaced as a propagated error item
that sets the done flag; and pulling the stream over any input whose
first decode failure follows well-formed rows yields exactly the kept
rows followed by that one error and nothing else, whatever rows come
after the failure. -/
theorem decode_failure_stops_stream (cfg : CsvHashSampler.Config) (hashFn : String → Nat) :
    (∀ rows, CsvHashSampler.next cfg hashFn ⟨rows, true⟩ = (none, ⟨rows, true⟩)) ∧
    (∀ (e : String) (rest : List (Except String (List String))),
      CsvHashSampler.next cfg hashFn ⟨Except.error e :: rest, false⟩ =
        (some (Except.error ⟨CsvHashSampler.ErrorKind.invalidData, e⟩), ⟨rest, true⟩)) ∧
    (∀ (good : List (List String)) (e : String) (post : List (Except String (List String))),
      CsvHashSampler.pullAll cfg hashFn (good.length + post.length + 1)
          ⟨good.map Except.ok ++ Except.error e :: post, false⟩ =
        (good.filter (CsvHashSampler.rowDecision cfg hashFn)).map Except.ok ++
          [Except.error ⟨CsvHashSampler.ErrorKind.invalidData, e⟩]) := by
  refine ⟨CsvHashSampler.next_done cfg hashFn, CsvHashSampler.next_error cfg hashFn,
    fun good e post => ?_⟩
  exact CsvHashSampler.pullAll_stops_at_error cfg hashFn good
    (good.length + post.length + 1) e post (by omega)

/-- C10: a decoded row too short to contain the designated column is
included unconditionally, whatever the probability, including a zero
probability: its decision is true and the iterator yields it directly. -/
theorem short_row_included_unconditionally (cfg : CsvHashSampler.Config)
    (hashFn : String → Nat) (row : List String)
    (rest : List (Except String (List String))) (h : row.length ≤ cfg.column_index) :
    CsvHashSampler.rowDecision cfg hashFn row = true ∧
    CsvHashSampler.next cfg hashFn ⟨Except.ok row :: rest, false⟩ =
      (some (Except.ok row), ⟨rest, false⟩) := by
  have hdec : CsvHashSampler.rowDecision cfg hashFn row = true := by
    rw [CsvHashSampler.rowDecision, List.getElem?_eq_none h]
  exact ⟨hdec, CsvHashSampler.next_keep cfg hashFn row rest hdec⟩

/-- C10 witness at a concrete input: probability 0, column index 2, a
one-field row. -/
theorem short_row_included_unconditionally_witness :
    CsvHashSampler.rowDecision ⟨0, 2, ["a", "b", "c"]⟩ testHash ["x"] = true ∧
    CsvHashSampler.next ⟨0, 2, ["a", "b", "c"]⟩ testHash ⟨[Except.ok ["x"]], false⟩ =
      (some (Except.ok ["x"]), ⟨[], false⟩) :=
  short_row_included_unconditionally ⟨0, 2, ["a", "b", "c"]⟩ testHash ["x"] [] (by decide)
